import Mathlib

/-!
Verification of the mnemonic keyboard-navigation library (src/index.ts).

The source is a single TypeScript module holding module-level state
(`isAltActive`, `config`, `accessMap`, `pendingGroup`) and event handlers.
We embed it shallowly:

* DOM elements become `Elem` (an identity plus the value of the configured
  attribute, `none` when the attribute is missing).
* The JS `Map<string, HTMLElement[]>` `accessMap` becomes an insertion-ordered
  association list `AccessMap` (JS `Map` iterates in insertion order, and
  `scanDocument` pushes onto the array held in the map in place).
* Hint labels (`span.mnemo-label` nodes) become `Label` records carrying the
  displayed text, the inline style properties the code sets, and the
  `fade-out` class; "visible non-exiting hints" are labels without `fade-out`.
* The keydown/keyup handlers and the MutationObserver callback become a step
  function `stepEvent : MState -> Event -> MState × KOut`, where `KOut`
  records whether `e.preventDefault()` was called and which side effects
  (`focus`, synthesized `Enter` events) `triggerElement` produced.
-/

namespace Mnem

/-- A DOM element: an identity and the value of the configured mnemonic
attribute (`el.getAttribute(config.attr)`), `none` when absent. -/
structure Elem where
  id : Nat
  attr : Option String
deriving DecidableEq, Repr

/-- JS `String.prototype.toLowerCase`, for the ASCII strings used as keys
and attribute values (character-wise case mapping). -/
def jsToLower (s : String) : String := ⟨s.data.map Char.toLower⟩

/-- JS `String.prototype.toUpperCase`, for the ASCII strings used as keys
and attribute values (character-wise case mapping). -/
def jsToUpper (s : String) : String := ⟨s.data.map Char.toUpper⟩

/-- The `accessMap : Map<string, HTMLElement[]>`, as an insertion-ordered
association list. -/
abbrev AccessMap := List (String × List Elem)

/-- Lookup `accessMap.get(key)` on the association list. -/
def mapGet : AccessMap → String → Option (List Elem)
  | [], _ => none
  | (k, v) :: rest, key => if k = key then some v else mapGet rest key

/-- Push as in `accessMap.get(key)!.push(el)`: append `el` to the sequence held under
`key`, in place. -/
def mapAppend : AccessMap → String → Elem → AccessMap
  | [], _, _ => []
  | (k, v) :: rest, key, el =>
      if k = key then (k, v ++ [el]) :: rest else (k, v) :: mapAppend rest key el

/-- One iteration of the `elements.forEach` body in `scanDocument`: skip the
element when the attribute is missing or lower-cases to the empty string
(JS `!key` is true for `undefined` and `""`), otherwise push it onto its
key's sequence, creating the entry on first sight. -/
def scanStep (m : AccessMap) (el : Elem) : AccessMap :=
  match el.attr with
  | none => m
  | some a =>
      if jsToLower a = "" then m
      else if (mapGet m (jsToLower a)).isSome then mapAppend m (jsToLower a) el
      else m ++ [(jsToLower a, [el])]

/-- Model of `scanDocument()`: clear the held mapping, then fold the document's tagged
elements (in traversal order) through `scanStep`. The prior mapping is the
first argument; `accessMap.clear()` discards it. -/
def scanDocument (_prior : AccessMap) (els : List Elem) : AccessMap :=
  els.foldl scanStep []

/-- A hint label (`span.mnemo-label`): its text, the element it was positioned
over, whether `fade-out` has been added, the inline `backgroundColor` /
`color` the default branch sets, and its class list. -/
structure Label where
  text : String
  elemId : Nat
  fadeOut : Bool
  inlineBg : Option String
  inlineColor : Option String
  classes : List String
deriving DecidableEq, Repr

/-- The label text chosen in `markMnemonics`: `KEY{i+1}` when the key's group
has more than one element, plain `KEY` otherwise. `n` is `elements.length`,
`i` the element's 0-based position. -/
def mkLabelText (key : String) (n i : Nat) : String :=
  if n > 1 then jsToUpper key ++ toString (i + 1) else jsToUpper key

/-- Create one label as the `forEach` body does: text from `mkLabelText`; with
a caller-supplied class list the classes are added, otherwise the inline
styles (including the hard-coded `#000` background and `#fff` text color)
are set. -/
def labelFor (key : String) (n i : Nat) (el : Elem)
    (classes : Option (List String)) : Label :=
  { text := mkLabelText key n i
    elemId := el.id
    fadeOut := false
    inlineBg := match classes with | some _ => none | none => some "#000"
    inlineColor := match classes with | some _ => none | none => some "#fff"
    classes := match classes with | some cs => "mnemo-label" :: cs | none => ["mnemo-label"] }

/-- The inner `elements.forEach((el, i) => ...)` of `markMnemonics`, for one
key: a label is built for every element, but when `activeKey` is given and
differs from `key` the body returns before `appendChild`, so the label never
becomes part of the document. `n` is the group's length, `i` the running
index. -/
def renderEls (key : String) (n : Nat) (activeKey : Option String)
    (classes : Option (List String)) : List Elem → Nat → List Label
  | [], _ => []
  | el :: rest, i =>
      let tail := renderEls key n activeKey classes rest (i + 1)
      match activeKey with
      | some ak => if key ≠ ak then tail else labelFor key n i el classes :: tail
      | none => labelFor key n i el classes :: tail

/-- The `accessMap.forEach` of `markMnemonics`: labels appended to the body,
in map iteration order. -/
def renderMap (m : AccessMap) (activeKey : Option String)
    (classes : Option (List String)) : List Label :=
  m.flatMap
    (fun p => renderEls p.1 p.2.length activeKey classes p.2 0)

/-- Model of `markMnemonics(show, activeKey?, classes?)` acting on the current set of
labels: every existing `.mnemo-label` gets `fade-out` added (removal happens
later, on `animationend`); when `show` is true a fresh batch is appended. -/
def markMnemonics (m : AccessMap) (labels : List Label) (showHints : Bool)
    (activeKey : Option String) (classes : Option (List String)) : List Label :=
  let faded := labels.map (fun l => { l with fadeOut := true })
  if showHints then faded ++ renderMap m activeKey classes else faded

/-- The visible non-exiting hints: labels without the `fade-out` class. -/
def nonExiting (labels : List Label) : List Label :=
  labels.filter (fun l => !l.fadeOut)

/-- A side effect of `triggerElement`: a focus call or a dispatched
synthetic keyboard event. -/
inductive Action
  | focus (elemId : Nat)
  | keyEvent (elemId : Nat) (etype : String) (key : String)
deriving DecidableEq, Repr

/-- Model of `triggerElement(el)`: focus it, then dispatch a bubbling `Enter` keydown
and keyup at it. -/
def triggerActions (el : Elem) : List Action :=
  [Action.focus el.id,
   Action.keyEvent el.id "keydown" "Enter",
   Action.keyEvent el.id "keyup" "Enter"]

/-- The observable outcome of one handler invocation: whether
`e.preventDefault()` ran, and the `triggerElement` side effects. -/
structure KOut where
  prevented : Bool
  actions : List Action
deriving DecidableEq, Repr

/-- The module-level mutable state: `isAltActive`, `accessMap`,
`pendingGroup`, plus the live `.mnemo-label` nodes. -/
structure MState where
  isAltActive : Bool
  accessMap : AccessMap
  pendingGroup : Option (List Elem)
  labels : List Label
deriving DecidableEq, Repr

/-- Model of `resetMnemonics()`: drop the modifier flag and the pending group, and
fade out every label (`markMnemonics(false)`). -/
def resetMnemonics (s : MState) : MState :=
  { s with
    isAltActive := false
    pendingGroup := none
    labels := markMnemonics s.accessMap s.labels false none none }

/-- The test `/^[1-9]$/.test(e.key)`. -/
def isDigit19 (s : String) : Bool :=
  match s.data with
  | [c] => decide ('1' ≤ c) && decide (c ≤ '9')
  | _ => false

/-- Value of `parseInt(e.key, 10) - 1` for a key accepted by `isDigit19`. -/
def digitIdx (s : String) : Nat :=
  match s.data with
  | [c] => c.toNat - '1'.toNat
  | _ => 0

/-- The tail of the keydown handler: the "regular letter while ALT active"
branch. Looks the lower-cased key up in the **live** `accessMap`; a miss
returns without `preventDefault`; a singleton match triggers and resets; a
multi-element match freezes the group and re-renders numbered hints for that
key. -/
def letterBranch (s : MState) (k : String) : MState × KOut :=
  if s.isAltActive && (k.length == 1) then
    match mapGet s.accessMap (jsToLower k) with
    | none => (s, ⟨false, []⟩)
    | some [] => (s, ⟨false, []⟩)
    | some [el] => (resetMnemonics s, ⟨true, triggerActions el⟩)
    | some els =>
        ({ s with
            pendingGroup := some els
            labels := markMnemonics s.accessMap s.labels true (some (jsToLower k)) none },
         ⟨true, []⟩)
  else (s, ⟨false, []⟩)

/-- The keydown handler: Escape cancels; Alt calls `preventDefault` and arms
(once); a digit 1–9 while a group is pending triggers the group member (if
in range) and always resets — note no `preventDefault` on this path; any
other key falls through to `letterBranch`. -/
def stepKeydown (s : MState) (k : String) : MState × KOut :=
  if k = "Escape" then (resetMnemonics s, ⟨false, []⟩)
  else if k = "Alt" then
    if s.isAltActive then (s, ⟨true, []⟩)
    else
      ({ s with
          isAltActive := true
          labels := markMnemonics s.accessMap s.labels true none none },
       ⟨true, []⟩)
  else
    match s.pendingGroup with
    | some g =>
        if isDigit19 k then
          (resetMnemonics s,
           ⟨false,
            match g.get? (digitIdx k) with
            | some el => triggerActions el
            | none => []⟩)
        else letterBranch s k
    | none => letterBranch s k

/-- The keyup handler: releasing Alt resets; everything else is ignored. -/
def stepKeyup (s : MState) (k : String) : MState :=
  if k = "Alt" then resetMnemonics s else s

/-- An event the module reacts to: a keydown, a keyup, or a MutationObserver
batch (which re-runs `scanDocument` over the mutated tree). -/
inductive Event
  | keydown (k : String)
  | keyup (k : String)
  | mutate (tree : List Elem)
deriving Repr

/-- One event-loop step. -/
def stepEvent (s : MState) : Event → MState × KOut
  | Event.keydown k => stepKeydown s k
  | Event.keyup k => (stepKeyup s k, ⟨false, []⟩)
  | Event.mutate t => ({ s with accessMap := scanDocument s.accessMap t }, ⟨false, []⟩)

/-- Run a sequence of events, keeping only the state. -/
def runEvents (s : MState) (evs : List Event) : MState :=
  evs.foldl (fun s e => (stepEvent s e).1) s

/-- Model of `initMnemonics` on a document: scan it, start with the modifier up, no
pending group and no labels. -/
def initState (tree : List Elem) : MState :=
  { isAltActive := false
    accessMap := scanDocument [] tree
    pendingGroup := none
    labels := [] }

/-- The `MnemonicConfig` the caller passes to `initMnemonics`: every field
optional. -/
structure MnemonicUserConfig where
  attr : Option String
  activeClass : Option String
  color : Option String
  textColor : Option String
  animationDuration : Option String
deriving DecidableEq, Repr

/-- The filled-in `Required<MnemonicConfig>` the module keeps. -/
structure MnemonicConfig where
  attr : String
  activeClass : String
  color : String
  textColor : String
  animationDuration : String
deriving DecidableEq, Repr

/-- The default-filling merge at the top of `initMnemonics` (the `??`
fallbacks). -/
def initConfig (u : MnemonicUserConfig) : MnemonicConfig :=
  { attr := u.attr.getD "data-accesskey"
    activeClass := u.activeClass.getD "mnemonic-active"
    color := u.color.getD ""
    textColor := u.textColor.getD ""
    animationDuration := u.animationDuration.getD "0.15s" }

/-- The `.mnemo-label` declarations of the stylesheet `ensureMnemoStyles`
injects: the configured background color, text color and enter-animation
duration. -/
structure MnemoStyleSheet where
  labelBackground : String
  labelColor : String
  animationDuration : String
deriving DecidableEq, Repr

/-- Model of `ensureMnemoStyles()`: the injected `#mnemo-style` block, whose
`.mnemo-label` rule reads `config.color`, `config.textColor` and
`config.animationDuration`. -/
def ensureMnemoStyles (cfg : MnemonicConfig) : MnemoStyleSheet :=
  { labelBackground := cfg.color
    labelColor := cfg.textColor
    animationDuration := cfg.animationDuration }

/-- CSS resolution for a label's background: an inline `style.backgroundColor`
declaration outranks the class rule from the stylesheet, which applies only
when no inline value is set. -/
def effectiveBackground (sheet : MnemoStyleSheet) (l : Label) : String :=
  l.inlineBg.getD sheet.labelBackground

/-- CSS resolution for a label's text color, as for `effectiveBackground`. -/
def effectiveTextColor (sheet : MnemoStyleSheet) (l : Label) : String :=
  l.inlineColor.getD sheet.labelColor

/-! ### Concrete documents used by counterexamples and witnesses -/

/-- Two elements sharing the mnemonic `o`. -/
def exO1 : Elem := ⟨1, some "o"⟩

/-- Second element with mnemonic `o`. -/
def exO2 : Elem := ⟨2, some "o"⟩

/-- An element with mnemonic `a`. -/
def exA3 : Elem := ⟨3, some "a"⟩

/-- An element with mnemonic `s`. -/
def exS4 : Elem := ⟨4, some "s"⟩

/-- A document with a duplicated mnemonic `o`. -/
def exTreeOO : List Elem := [exO1, exO2]

/-- The same document after a mutation added an element bound to `a`. -/
def exTreeOOA : List Elem := [exO1, exO2, exA3]

/-- A single-element document bound to `s`. -/
def exTreeS : List Elem := [exS4]

/-- The state reached from `exTreeOO` by pressing Alt and then `o`:
Disambiguating on `o` with the two-element group pending. -/
def exDisamb : MState :=
  runEvents (initState exTreeOO) [Event.keydown "Alt", Event.keydown "o"]

/-- The well-formedness the Element Indexer maintains for one map entry:
a non-empty sequence, and every member carries a declared, non-empty
attribute whose lower-casing is the entry's key. -/
def entryWF (p : String × List Elem) : Prop :=
  p.2 ≠ [] ∧ ∀ el ∈ p.2, ∃ a, el.attr = some a ∧ a ≠ "" ∧ jsToLower a = p.1

/-- Stated from the amended C1 claim: the Armed-mode hint texts, key group by
key group — a lone binding shows the bare uppercased key, a shared key shows
the uppercased key followed by each element's 1-based ordinal. -/
def armedHintTexts (m : AccessMap) : List String :=
  m.flatMap (fun p =>
    (List.range p.2.length).map (fun i =>
      if p.2.length > 1 then jsToUpper p.1 ++ toString (i + 1) else jsToUpper p.1))

/-- A non-null pending group should only exist while the modifier is
recorded as held. -/
def altInv (s : MState) : Prop :=
  s.pendingGroup.isSome = true → s.isAltActive = true

/-- A configuration asking for a red hint background and blue hint text. -/
def exCfgRB : MnemonicConfig :=
  initConfig ⟨none, none, some "red", some "blue", none⟩

/-- State `exDisamb` after a mutation batch added `exA3` (bound to `a`) to the
document: the index is rebuilt while the disambiguation group stays pending. -/
def exDisambMut : MState :=
  (stepEvent exDisamb (Event.mutate exTreeOOA)).1

/-! ### Helper lemmas -/


theorem nonExiting_fadeAll (ls : List Label) :
    nonExiting (ls.map (fun l => { l with fadeOut := true })) = [] := by
  induction ls with
  | nil => rfl
  | cons l rest ih =>
      rw [List.map_cons]
      rw [nonExiting] at ih ⊢
      simp [List.filter]

theorem renderEls_fadeOut (key : String) (n : Nat) (ak : Option String)
    (cs : Option (List String)) :
    ∀ (els : List Elem) (i : Nat) (l : Label),
      l ∈ renderEls key n ak cs els i → l.fadeOut = false := by
  intro els
  induction els with
  | nil => intro i l h; simp [renderEls] at h
  | cons el rest ih =>
      intro i l h
      cases ak with
      | none =>
          simp only [renderEls] at h
          rw [List.mem_cons] at h
          rcases h with rfl | h
          · rfl
          · exact ih (i + 1) l h
      | some a =>
          simp only [renderEls] at h
          by_cases hka : key ≠ a
          · rw [if_pos hka] at h
            exact ih (i + 1) l h
          · rw [if_neg hka] at h
            rw [List.mem_cons] at h
            rcases h with rfl | h
            · rfl
            · exact ih (i + 1) l h

theorem nonExiting_renderMap (m : AccessMap) (ak : Option String)
    (cs : Option (List String)) :
    nonExiting (renderMap m ak cs) = renderMap m ak cs := by
  unfold nonExiting
  rw [List.filter_eq_self]
  intro l hl
  rcases List.mem_flatMap.mp hl with ⟨p, _hp, hlp⟩
  simp [renderEls_fadeOut _ _ _ _ _ _ _ hlp]

theorem markMnemonics_false_nonExiting (m : AccessMap) (ls : List Label)
    (ak : Option String) (cs : Option (List String)) :
    nonExiting (markMnemonics m ls false ak cs) = [] := by
  simp [markMnemonics, nonExiting_fadeAll]

theorem markMnemonics_true_nonExiting (m : AccessMap) (ls : List Label)
    (ak : Option String) (cs : Option (List String)) :
    nonExiting (markMnemonics m ls true ak cs) = renderMap m ak cs := by
  have h1 := nonExiting_fadeAll ls
  have h2 := nonExiting_renderMap m ak cs
  unfold nonExiting at h1 h2 ⊢
  simp [markMnemonics, List.filter_append, h1, h2]

theorem resetMnemonics_isAltActive (s : MState) :
    (resetMnemonics s).isAltActive = false := rfl

theorem resetMnemonics_pendingGroup (s : MState) :
    (resetMnemonics s).pendingGroup = none := rfl

theorem resetMnemonics_nonExiting (s : MState) :
    nonExiting (resetMnemonics s).labels = [] :=
  markMnemonics_false_nonExiting s.accessMap s.labels none none

theorem ne_escape_of_len1 {k : String} (h : k.length = 1) : k ≠ "Escape" := by
  rintro rfl
  exact absurd h (by decide)

theorem ne_alt_of_len1 {k : String} (h : k.length = 1) : k ≠ "Alt" := by
  rintro rfl
  exact absurd h (by decide)

theorem isDigit19_ne_escape {k : String} (h : isDigit19 k = true) : k ≠ "Escape" := by
  rintro rfl
  exact absurd h (by decide)

theorem isDigit19_ne_alt {k : String} (h : isDigit19 k = true) : k ≠ "Alt" := by
  rintro rfl
  exact absurd h (by decide)

/-- In the digit branch the handler never calls `e.preventDefault`, triggers
the pending group member when the digit is in range, and always resets. -/
theorem stepKeydown_digit {s : MState} {g : List Elem} {k : String}
    (hg : s.pendingGroup = some g) (hd : isDigit19 k = true) :
    stepKeydown s k =
      (resetMnemonics s,
       ⟨false,
        match g.get? (digitIdx k) with
        | some el => triggerActions el
        | none => []⟩) := by
  unfold stepKeydown
  rw [if_neg (isDigit19_ne_escape hd), if_neg (isDigit19_ne_alt hd), hg]
  simp [hd]

/-- Any key that is neither Escape, Alt, nor a pending-group digit falls
through to the letter branch. -/
theorem stepKeydown_letter {s : MState} {k : String}
    (h1 : k ≠ "Escape") (h2 : k ≠ "Alt")
    (h3 : s.pendingGroup = none ∨ isDigit19 k = false) :
    stepKeydown s k = letterBranch s k := by
  unfold stepKeydown
  rw [if_neg h1, if_neg h2]
  rcases h3 with h3 | h3
  · rw [h3]
  · cases hpg : s.pendingGroup with
    | none => rfl
    | some g => simp [h3]

theorem mapAppend_mem {m : AccessMap} {key : String} {el : Elem}
    {p : String × List Elem} (hp : p ∈ mapAppend m key el) :
    p ∈ m ∨ ∃ v, (key, v) ∈ m ∧ p = (key, v ++ [el]) := by
  induction m with
  | nil => simp [mapAppend] at hp
  | cons q rest ih =>
      obtain ⟨k, v⟩ := q
      by_cases hk : k = key
      · subst hk
        rw [show mapAppend ((k, v) :: rest) k el = (k, v ++ [el]) :: rest from by
              simp [mapAppend],
            List.mem_cons] at hp
        rcases hp with hp | hp
        · exact Or.inr ⟨v, List.mem_cons_self _ _, hp⟩
        · exact Or.inl (List.mem_cons_of_mem _ hp)
      · rw [show mapAppend ((k, v) :: rest) key el = (k, v) :: mapAppend rest key el from by
              simp [mapAppend, hk],
            List.mem_cons] at hp
        rcases hp with hp | hp
        · exact Or.inl (by rw [hp]; exact List.mem_cons_self _ _)
        · rcases ih hp with h | ⟨v', hv', heq⟩
          · exact Or.inl (List.mem_cons_of_mem _ h)
          · exact Or.inr ⟨v', List.mem_cons_of_mem _ hv', heq⟩

theorem scanStep_WF {m : AccessMap} {el : Elem}
    (h : ∀ p ∈ m, entryWF p) : ∀ p ∈ scanStep m el, entryWF p := by
  intro p hp
  unfold scanStep at hp
  cases hattr : el.attr with
  | none =>
      rw [hattr] at hp
      exact h p hp
  | some a =>
      rw [hattr] at hp
      simp only at hp
      by_cases hkey : jsToLower a = ""
      · rw [if_pos hkey] at hp
        exact h p hp
      · rw [if_neg hkey] at hp
        have hane : a ≠ "" := fun ha => hkey (by rw [ha]; rfl)
        by_cases hsome : (mapGet m (jsToLower a)).isSome
        · rw [if_pos hsome] at hp
          rcases mapAppend_mem hp with hmem | ⟨v, hv, rfl⟩
          · exact h p hmem
          · have hw := h _ hv
            refine ⟨by simp, ?_⟩
            intro el' hel'
            rcases List.mem_append.mp hel' with h1 | h2
            · exact hw.2 el' h1
            · have : el' = el := by simpa using h2
              subst this
              exact ⟨a, hattr, hane, rfl⟩
        · rw [if_neg hsome] at hp
          rcases List.mem_append.mp hp with hmem | hnew
          · exact h p hmem
          · have : p = (jsToLower a, [el]) := by simpa using hnew
            subst this
            refine ⟨by simp, ?_⟩
            intro el' hel'
            have : el' = el := by simpa using hel'
            subst this
            exact ⟨a, hattr, hane, rfl⟩

theorem foldl_scanStep_WF (els : List Elem) :
    ∀ (m : AccessMap), (∀ p ∈ m, entryWF p) →
      ∀ p ∈ els.foldl scanStep m, entryWF p := by
  induction els with
  | nil => intro m hm; exact hm
  | cons el rest ih =>
      intro m hm
      exact ih (scanStep m el) (scanStep_WF hm)

theorem scanDocument_WF (prior : AccessMap) (els : List Elem) :
    ∀ p ∈ scanDocument prior els, entryWF p :=
  foldl_scanStep_WF els [] (by intro p hp; simp at hp)

/-- Texts of the labels one key's group contributes in AllKeys mode. -/
theorem renderEls_texts (key : String) (n : Nat) (cs : Option (List String)) :
    ∀ (els : List Elem) (i : Nat),
      (renderEls key n none cs els i).map Label.text =
        (List.range' i els.length).map (fun j => mkLabelText key n j) := by
  intro els
  induction els with
  | nil => intro i; rfl
  | cons el rest ih =>
      intro i
      simp only [renderEls, List.map_cons, List.length_cons, List.range']
      rw [ih]
      rfl

theorem renderMap_texts (m : AccessMap) (cs : Option (List String)) :
    (renderMap m none cs).map Label.text = armedHintTexts m := by
  induction m with
  | nil => rfl
  | cons p rest ih =>
      rw [show renderMap (p :: rest) none cs =
            renderEls p.1 p.2.length none cs p.2 0 ++ renderMap rest none cs from by
              simp [renderMap]]
      rw [show armedHintTexts (p :: rest) =
            (List.range p.2.length).map (fun i =>
              if p.2.length > 1 then jsToUpper p.1 ++ toString (i + 1) else jsToUpper p.1) ++
              armedHintTexts rest from by
              simp [armedHintTexts]]
      rw [List.map_append, ih, renderEls_texts, List.range_eq_range']
      simp [mkLabelText]

/-! ### Claim theorems -/

/-- C7: after every index rebuild, every key present in the mapping maps to a
non-empty sequence whose members all carry a declared non-empty attribute
lower-casing to that key, and an element with a missing or empty attribute
value appears under no key. -/
theorem C7_index_invariants (prior : AccessMap) (els : List Elem) :
    (∀ p ∈ scanDocument prior els,
       p.2 ≠ [] ∧ ∀ el ∈ p.2, ∃ a, el.attr = some a ∧ a ≠ "" ∧ jsToLower a = p.1) ∧
    (∀ el : Elem, el.attr = none ∨ el.attr = some "" →
       ∀ p ∈ scanDocument prior els, el ∉ p.2) := by
  refine ⟨scanDocument_WF prior els, ?_⟩
  intro el hel p hp hmem
  rcases (scanDocument_WF prior els p hp).2 el hmem with ⟨a, ha, hane, _⟩
  rcases hel with h | h
  · rw [h] at ha
    exact Option.noConfusion ha
  · rw [h] at ha
    exact hane (Option.some.inj ha).symm

/-- Witness for C7 at the concrete two-element document `exTreeOO`. -/
theorem C7_witness :
    ("o", [exO1, exO2]).2 ≠ [] ∧
    ∀ el ∈ ("o", [exO1, exO2]).2,
      ∃ a, el.attr = some a ∧ a ≠ "" ∧ jsToLower a = ("o", [exO1, exO2]).1 :=
  (C7_index_invariants [] exTreeOO).1 ("o", [exO1, exO2]) (by decide)

/-- C8: rebuilding the index twice from the same tree without an intervening
mutation yields the same mapping — same entries in the same order, hence the
same sequence under every key — because the rescan clears the held mapping
before refilling it. -/
theorem C8_rescan_idempotent (m : AccessMap) (els : List Elem) :
    scanDocument (scanDocument m els) els = scanDocument m els ∧
    ∀ k, mapGet (scanDocument (scanDocument m els) els) k =
      mapGet (scanDocument m els) k :=
  ⟨rfl, fun _ => rfl⟩

/-- C1 is false as stated: with two elements sharing the key `o`, the hints
created on modifier-down (Armed, no letter chosen) read `O1` and `O2`, not
the bare uppercased key `O`. -/
theorem C1_counterexample :
    (stepKeydown (initState exTreeOO) "Alt").1.labels.map Label.text = ["O1", "O2"] ∧
    ("O1" : String) ≠ jsToUpper "o" := by
  decide

/-- C1 (amended): on modifier-down from a disarmed state, every key's group
is rendered; a key bound to exactly one element shows the bare uppercased
key, while a key bound to two or more shows the uppercased key followed by
each element's 1-based ordinal. -/
theorem C1_armed_hint_texts (s : MState) (h : s.isAltActive = false) :
    (nonExiting (stepKeydown s "Alt").1.labels).map Label.text =
      armedHintTexts s.accessMap := by
  unfold stepKeydown
  rw [if_neg (show ("Alt" : String) ≠ "Escape" by decide), if_pos rfl, h]
  simp only [Bool.false_eq_true, if_false]
  rw [markMnemonics_true_nonExiting, renderMap_texts]

/-- Witness for C1 (amended) at the concrete document `exTreeOO`. -/
theorem C1_witness :
    (nonExiting (stepKeydown (initState exTreeOO) "Alt").1.labels).map Label.text =
      armedHintTexts (initState exTreeOO).accessMap :=
  C1_armed_hint_texts (initState exTreeOO) rfl

/-- C2 is false in its last clause: from `exDisamb` (Disambiguating on `o`,
modifier never released), a mutation adds an element bound to `a` — a key
with no binding at all when the letter was pressed — and the very next
letter keydown `a` already triggers that new element. Letter resolution sees
the updated index with no modifier release or re-arm in between. -/
theorem C2_counterexample :
    exDisamb.pendingGroup = some [exO1, exO2] ∧
    mapGet exDisamb.accessMap "a" = none ∧
    exDisambMut.pendingGroup = some [exO1, exO2] ∧
    (stepKeydown exDisambMut "a").2.actions = triggerActions exA3 := by
  decide

/-- C2 (amended): after entering Disambiguating, an index rebuild leaves the
pending group's contents and order unchanged, and a follow-up digit press
still resolves against the group captured when the letter was pressed; the
frozen snapshot constrains only digit resolution — letter resolution always
reads the live index. -/
theorem C2_frozen_group (s : MState) (g : List Elem) (t : List Elem)
    (d : String) (el : Elem) (hg : s.pendingGroup = some g)
    (hd : isDigit19 d = true) (hel : g.get? (digitIdx d) = some el) :
    (stepEvent s (Event.mutate t)).1.pendingGroup = some g ∧
    (stepKeydown (stepEvent s (Event.mutate t)).1 d).2.actions = triggerActions el := by
  refine ⟨hg, ?_⟩
  rw [stepKeydown_digit (show (stepEvent s (Event.mutate t)).1.pendingGroup = some g from hg) hd]
  rw [List.get?_eq_getElem?] at hel
  simp [hel]

/-- Witness for C2 (amended): in `exDisamb`, after the mutation adding `exA3`,
pressing `2` still triggers `exO2`, the second member of the frozen group. -/
theorem C2_witness :
    (stepEvent exDisamb (Event.mutate exTreeOOA)).1.pendingGroup = some [exO1, exO2] ∧
    (stepKeydown (stepEvent exDisamb (Event.mutate exTreeOOA)).1 "2").2.actions =
      triggerActions exO2 :=
  C2_frozen_group exDisamb [exO1, exO2] exTreeOOA "2" exO2 (by decide) (by decide) (by decide)

/-- C3 is false for the digit branch: pressing `1` in `exDisamb` is consumed —
it triggers the first group member and resets the state — yet
`e.preventDefault()` is never called on this path. -/
theorem C3_counterexample :
    (stepKeydown exDisamb "1").2.actions = triggerActions exO1 ∧
    (stepKeydown exDisamb "1").1.pendingGroup = none ∧
    (stepKeydown exDisamb "1").2.prevented = false := by
  decide

/-- C3 (amended): a letter keydown consumed by the letter branch (a match
exists) prevents the browser default; a letter with no matching binding does
not; the digit branch, although it triggers and transitions, never calls
`preventDefault`. -/
theorem C3_prevent_default (s : MState) (k : String)
    (h1 : k ≠ "Escape") (h2 : k ≠ "Alt") :
    (∀ g, s.pendingGroup = some g → isDigit19 k = true →
       (stepKeydown s k).2.prevented = false) ∧
    ((s.pendingGroup = none ∨ isDigit19 k = false) →
       s.isAltActive = true → k.length = 1 →
       ∀ els, mapGet s.accessMap (jsToLower k) = some els → els ≠ [] →
         (stepKeydown s k).2.prevented = true) ∧
    ((s.pendingGroup = none ∨ isDigit19 k = false) →
       s.isAltActive = true → k.length = 1 →
       (mapGet s.accessMap (jsToLower k) = none ∨
         mapGet s.accessMap (jsToLower k) = some []) →
         (stepKeydown s k).2.prevented = false) := by
  refine ⟨?_, ?_, ?_⟩
  · intro g hg hd
    rw [stepKeydown_digit hg hd]
  · intro hnb halt hlen els hm hne
    rw [stepKeydown_letter h1 h2 hnb]
    unfold letterBranch
    rw [if_pos (by simp [halt, hlen]), hm]
    rcases els with _ | ⟨el, _ | ⟨el2, rest⟩⟩
    · exact absurd rfl hne
    · rfl
    · rfl
  · intro hnb halt hlen hm
    rw [stepKeydown_letter h1 h2 hnb]
    unfold letterBranch
    rw [if_pos (by simp [halt, hlen])]
    rcases hm with hm | hm
    · rw [hm]
    · rw [hm]

/-- Witness for C3 (amended): the digit conjunct evaluated in `exDisamb`. -/
theorem C3_witness :
    (stepKeydown exDisamb "1").2.prevented = false :=
  (C3_prevent_default exDisamb "1" (by decide) (by decide)).1
    [exO1, exO2] (by decide) (by decide)

/-- C4: in Disambiguating with group `g`, a digit `d` keydown returns to Idle
with all hints exiting; when `g[d-1]` exists exactly that element is
triggered (focus plus synthesized Enter press and release), and when it does
not exist nothing is triggered. -/
theorem C4_digit_resolution (s : MState) (g : List Elem) (d : String)
    (hg : s.pendingGroup = some g) (hd : isDigit19 d = true) :
    ((stepKeydown s d).1.isAltActive = false ∧
     (stepKeydown s d).1.pendingGroup = none ∧
     nonExiting (stepKeydown s d).1.labels = []) ∧
    (∀ el, g.get? (digitIdx d) = some el →
       (stepKeydown s d).2.actions = triggerActions el) ∧
    (g.get? (digitIdx d) = none → (stepKeydown s d).2.actions = []) := by
  rw [stepKeydown_digit hg hd]
  refine ⟨⟨rfl, rfl, resetMnemonics_nonExiting s⟩, ?_, ?_⟩
  · intro el hel
    rw [List.get?_eq_getElem?] at hel
    simp [hel]
  · intro hnone
    rw [List.get?_eq_getElem?] at hnone
    simp [hnone]

/-- Witness for C4: in `exDisamb`, pressing `2` triggers `exO2` (in range)
and pressing `5` triggers nothing (out of range); both reset to Idle. -/
theorem C4_witness :
    ((stepKeydown exDisamb "2").1.isAltActive = false ∧
     (stepKeydown exDisamb "2").1.pendingGroup = none ∧
     nonExiting (stepKeydown exDisamb "2").1.labels = []) ∧
    (stepKeydown exDisamb "2").2.actions = triggerActions exO2 ∧
    (stepKeydown exDisamb "5").2.actions = [] := by
  have h2 := C4_digit_resolution exDisamb [exO1, exO2] "2" (by decide) (by decide)
  have h5 := C4_digit_resolution exDisamb [exO1, exO2] "5" (by decide) (by decide)
  exact ⟨h2.1, h2.2.1 exO2 (by decide), h5.2.2 (by decide)⟩

/-- C5 is contradicted by the code: with `color: "red"` and
`textColor: "blue"` configured, the hint rendered for the lone `s` binding
in the default (non-class-list) presentation still has effective background
`#000` and text color `#fff`, because the branch sets those inline values
unconditionally and an inline declaration outranks the injected stylesheet
rule that does carry the configured colors. -/
theorem C5_hardcoded_inline_colors :
    exCfgRB.color = "red" ∧ exCfgRB.textColor = "blue" ∧
    (ensureMnemoStyles exCfgRB).labelBackground = "red" ∧
    (ensureMnemoStyles exCfgRB).labelColor = "blue" ∧
    (stepKeydown (initState exTreeS) "Alt").1.labels.map
        (fun l => effectiveBackground (ensureMnemoStyles exCfgRB) l) = ["#000"] ∧
    (stepKeydown (initState exTreeS) "Alt").1.labels.map
        (fun l => effectiveTextColor (ensureMnemoStyles exCfgRB) l) = ["#fff"] := by
  decide

/-- C6: from Armed or Disambiguating, both cancel events — an Escape keydown
and a modifier (Alt) keyup — return to Idle: modifier flag cleared, pending
group discarded, and zero visible non-exiting hints. -/
theorem C6_cancel (s : MState)
    (_h : s.isAltActive = true ∨ s.pendingGroup.isSome = true) :
    ((stepEvent s (Event.keydown "Escape")).1.isAltActive = false ∧
     (stepEvent s (Event.keydown "Escape")).1.pendingGroup = none ∧
     nonExiting (stepEvent s (Event.keydown "Escape")).1.labels = []) ∧
    ((stepEvent s (Event.keyup "Alt")).1.isAltActive = false ∧
     (stepEvent s (Event.keyup "Alt")).1.pendingGroup = none ∧
     nonExiting (stepEvent s (Event.keyup "Alt")).1.labels = []) := by
  have hEsc : (stepEvent s (Event.keydown "Escape")).1 = resetMnemonics s := by
    simp [stepEvent, stepKeydown]
  have hUp : (stepEvent s (Event.keyup "Alt")).1 = resetMnemonics s := by
    simp [stepEvent, stepKeyup]
  rw [hEsc, hUp]
  exact ⟨⟨rfl, rfl, resetMnemonics_nonExiting s⟩, ⟨rfl, rfl, resetMnemonics_nonExiting s⟩⟩

/-- Witness for C6 at the Disambiguating state `exDisamb`. -/
theorem C6_witness :
    ((stepEvent exDisamb (Event.keydown "Escape")).1.isAltActive = false ∧
     (stepEvent exDisamb (Event.keydown "Escape")).1.pendingGroup = none ∧
     nonExiting (stepEvent exDisamb (Event.keydown "Escape")).1.labels = []) ∧
    ((stepEvent exDisamb (Event.keyup "Alt")).1.isAltActive = false ∧
     (stepEvent exDisamb (Event.keyup "Alt")).1.pendingGroup = none ∧
     nonExiting (stepEvent exDisamb (Event.keyup "Alt")).1.labels = []) :=
  C6_cancel exDisamb (Or.inl (by decide))

/-- C9: while Disambiguating, a single-character non-digit keydown is
resolved against the live index, not the frozen group: a key with exactly
one bound element in the current index is triggered and the session resets
to Idle; a key with two or more replaces the pending group with that key's
current element list and re-renders numbered hints restricted to the new
key. -/
theorem C9_disambiguating_letter (s : MState) (g : List Elem) (k : String)
    (_hg : s.pendingGroup = some g) (halt : s.isAltActive = true)
    (hlen : k.length = 1) (hnd : isDigit19 k = false) :
    (∀ el, mapGet s.accessMap (jsToLower k) = some [el] →
       (stepKeydown s k).2.actions = triggerActions el ∧
       (stepKeydown s k).1.pendingGroup = none ∧
       (stepKeydown s k).1.isAltActive = false) ∧
    (∀ el1 el2 rest, mapGet s.accessMap (jsToLower k) = some (el1 :: el2 :: rest) →
       (stepKeydown s k).1.pendingGroup = some (el1 :: el2 :: rest) ∧
       nonExiting (stepKeydown s k).1.labels =
         renderMap s.accessMap (some (jsToLower k)) none) := by
  have hstep := @stepKeydown_letter s k (ne_escape_of_len1 hlen) (ne_alt_of_len1 hlen)
    (Or.inr hnd)
  rw [hstep]
  constructor
  · intro el hm
    unfold letterBranch
    rw [if_pos (by simp [halt, hlen]), hm]
    exact ⟨rfl, rfl, rfl⟩
  · intro el1 el2 rest hm
    unfold letterBranch
    rw [if_pos (by simp [halt, hlen]), hm]
    exact ⟨rfl, markMnemonics_true_nonExiting _ _ _ _⟩

/-- Witness for C9: in the mutated Disambiguating state `exDisambMut`,
pressing `a` (a singleton key in the live index) triggers `exA3` and resets;
pressing `o` re-renders the numbered `o` hints from the live index. -/
theorem C9_witness :
    ((stepKeydown exDisambMut "a").2.actions = triggerActions exA3 ∧
     (stepKeydown exDisambMut "a").1.pendingGroup = none ∧
     (stepKeydown exDisambMut "a").1.isAltActive = false) ∧
    ((stepKeydown exDisambMut "o").1.pendingGroup = some [exO1, exO2] ∧
     nonExiting (stepKeydown exDisambMut "o").1.labels =
       renderMap exDisambMut.accessMap (some "o") none) := by
  have h := C9_disambiguating_letter exDisambMut [exO1, exO2] "a"
    (by decide) (by decide) (by decide) (by decide)
  have h2 := C9_disambiguating_letter exDisambMut [exO1, exO2] "o"
    (by decide) (by decide) (by decide) (by decide)
  exact ⟨h.1 exA3 (by decide), h2.2 exO1 exO2 [] (by decide)⟩

/-- The function `letterBranch` keeps the modifier-implies-group invariant: it installs a
pending group only under an `isAltActive` guard and otherwise leaves both
fields alone (or resets them together). -/
theorem letterBranch_altInv {s : MState} {k : String} (hinv : altInv s) :
    altInv (letterBranch s k).1 := by
  unfold letterBranch
  by_cases hc : (s.isAltActive && (k.length == 1)) = true
  · rw [if_pos hc]
    cases hm : mapGet s.accessMap (jsToLower k) with
    | none => exact hinv
    | some els =>
        rcases els with _ | ⟨el, _ | ⟨el2, rest⟩⟩
        · exact hinv
        · intro habs
          simp [resetMnemonics] at habs
        · intro _
          exact (Bool.and_eq_true _ _).mp hc |>.1
  · rw [if_neg hc]
    exact hinv

/-- C10: a non-null pending disambiguation group implies the modifier is
recorded as active — the invariant holds initially and is preserved by every
keydown, keyup and mutation-observer step. -/
theorem C10_invariant :
    (∀ t, altInv (initState t)) ∧
    ∀ (s : MState) (e : Event), altInv s → altInv (stepEvent s e).1 := by
  constructor
  · intro t h
    simp [initState] at h
  · intro s e hinv
    cases e with
    | mutate t => exact fun h => hinv h
    | keyup k =>
        show altInv (stepKeyup s k)
        unfold stepKeyup
        by_cases hk : k = "Alt"
        · rw [if_pos hk]
          intro habs
          simp [resetMnemonics] at habs
        · rw [if_neg hk]
          exact hinv
    | keydown k =>
        show altInv (stepKeydown s k).1
        by_cases h1 : k = "Escape"
        · subst h1
          rw [show (stepKeydown s "Escape").1 = resetMnemonics s from by
                simp [stepKeydown]]
          intro habs
          simp [resetMnemonics] at habs
        · by_cases h2 : k = "Alt"
          · subst h2
            unfold stepKeydown
            rw [if_neg (show ("Alt" : String) ≠ "Escape" by decide), if_pos rfl]
            by_cases h3 : s.isAltActive = true
            · rw [if_pos h3]
              exact hinv
            · rw [if_neg h3]
              intro _
              rfl
          · cases hpg : s.pendingGroup with
            | some g =>
                by_cases h4 : isDigit19 k = true
                · rw [stepKeydown_digit hpg h4]
                  intro habs
                  simp [resetMnemonics] at habs
                · have h4f : isDigit19 k = false := by
                    revert h4
                    cases isDigit19 k <;> simp
                  rw [stepKeydown_letter h1 h2 (Or.inr h4f)]
                  exact letterBranch_altInv hinv
            | none =>
                rw [stepKeydown_letter h1 h2 (Or.inl hpg)]
                exact letterBranch_altInv hinv

/-- Witness for C10: one preserved step from the concrete Disambiguating
state `exDisamb`. -/
theorem C10_witness : altInv (stepEvent exDisamb (Event.keydown "Escape")).1 :=
  C10_invariant.2 exDisamb (Event.keydown "Escape")
    (fun _ => (by decide : exDisamb.isAltActive = true))

end Mnem
